import Mathlib

namespace TaskManager

/- Model of a JavaScript/JSON value as received by the webhook handler.
Numbers are restricted to integers: every numeric value appearing in the
payload shapes this development reasons about is an integer, and the
handler never does arithmetic on payload numbers. Arrays and objects carry
their elements through the mutually defined list types `JsonList` and
`JsonProps` so that every function on values is structurally recursive. -/
mutual

/-- JavaScript/JSON value. -/
inductive Json where
  | null : Json
  | bool : Bool → Json
  | num : Int → Json
  | str : String → Json
  | arr : JsonList → Json
  | obj : JsonProps → Json

/-- List of array elements. -/
inductive JsonList where
  | nil : JsonList
  | cons : Json → JsonList → JsonList

/-- List of object properties in insertion order. -/
inductive JsonProps where
  | nil : JsonProps
  | cons : String → Json → JsonProps → JsonProps

end

/-- The elements of an array value as an ordinary list. -/
def JsonList.toList : JsonList → List Json
  | .nil => []
  | .cons j l => j :: l.toList

/-- Build an array value from an ordinary list. -/
def JsonList.ofList : List Json → JsonList
  | [] => .nil
  | j :: l => .cons j (JsonList.ofList l)

/-- The key/value pairs of an object value as an ordinary list. -/
def JsonProps.toList : JsonProps → List (String × Json)
  | .nil => []
  | .cons k v l => (k, v) :: l.toList

/-- Build an object value from an ordinary association list. -/
def JsonProps.ofList : List (String × Json) → JsonProps
  | [] => .nil
  | (k, v) :: l => .cons k v (JsonProps.ofList l)

/-- Array value from an ordinary list of elements. -/
def Json.arrL (l : List Json) : Json :=
  .arr (JsonList.ofList l)

/-- Object value from an ordinary association list. -/
def Json.objL (kvs : List (String × Json)) : Json :=
  .obj (JsonProps.ofList kvs)

/-- JavaScript truthiness of a value (`if (x)`): `null`, `false`, `0` and
the empty string are falsy, arrays and objects are always truthy. -/
def Json.truthy : Json → Bool
  | .null => false
  | .bool b => b
  | .num n => n != 0
  | .str s => s != ""
  | .arr _ => true
  | .obj _ => true

/-- Model of `typeof x === 'object'` (true for objects, arrays and `null`). -/
def Json.isObjectType : Json → Bool
  | .obj _ => true
  | .arr _ => true
  | .null => true
  | _ => false

/-- Model of `typeof x === 'string'`. -/
def Json.isStr : Json → Bool
  | .str _ => true
  | _ => false

/-- Model of `Array.isArray(x)`. -/
def Json.isArr : Json → Bool
  | .arr _ => true
  | _ => false

/-- Property access `x[k]` / `x.k`, returning `none` for `undefined`.
Plain objects look up the key; every other value (including arrays,
whose non-index properties are undefined here) yields `undefined`.
Access on `null`/`undefined` would throw in JavaScript; the one place the
handler can perform such an access is modeled explicitly in the pipeline. -/
def Json.getProp : Json → String → Option Json
  | .obj kvs, k => (kvs.toList.find? (fun kv => kv.1 = k)).map (·.2)
  | _, _ => none

/-- Truthiness of a possibly-undefined value. -/
def truthyOpt (o : Option Json) : Bool :=
  match o with
  | some v => v.truthy
  | none => false

/-- Model of `typeof x === 'object'` on a possibly-undefined value. -/
def isObjectTypeOpt (o : Option Json) : Bool :=
  match o with
  | some v => v.isObjectType
  | none => false

/-- JavaScript `a || b` on possibly-undefined values: the first operand if
truthy, otherwise the second. -/
def jsOr (a b : Option Json) : Option Json :=
  if truthyOpt a then a else b

/-- JavaScript `a || d` where `d` is a concrete default (e.g. `from || ''`). -/
def jsOrDefault (o : Option Json) (d : Json) : Json :=
  match o with
  | some v => if v.truthy then v else d
  | none => d

/-- Optional-chaining access `o?.k` composed with a previous possibly-undefined
access (e.g. `message.headers?.from`). -/
def optChainProp (o : Option Json) (k : String) : Option Json :=
  o.bind (fun j => j.getProp k)

/-- The value of a possibly-undefined Json if it is a string (used for the
TypeScript-level `typeof x === 'string' ? x : y` guards). -/
def asStr (o : Option Json) : Option String :=
  match o with
  | some (.str s) => some s
  | _ => none

/-- Whitespace class of JavaScript: the characters matched by the regex
class `\s` and trimmed by `String.prototype.trim` (ASCII whitespace,
no-break space, BOM, and the Unicode space separators and line separators). -/
def isRegexWs (c : Char) : Bool :=
  c.val = 9 || c.val = 10 || c.val = 11 || c.val = 12 || c.val = 13 || c.val = 32 ||
  c.val = 160 || c.val = 0x1680 || (0x2000 ≤ c.val && c.val ≤ 0x200A) ||
  c.val = 0x2028 || c.val = 0x2029 || c.val = 0x202F || c.val = 0x205F ||
  c.val = 0x3000 || c.val = 0xFEFF

/-- JavaScript `String.prototype.trim` on a character list. -/
def jsTrim (l : List Char) : List Char :=
  ((l.dropWhile isRegexWs).reverse.dropWhile isRegexWs).reverse

/-- JavaScript `String.prototype.trim`. -/
def jsTrimStr (s : String) : String :=
  String.mk (jsTrim s.data)

/-- JavaScript `String.prototype.toLowerCase`, restricted to the ASCII range.
Every character class used by the validators in this code base is ASCII, so
the ASCII restriction does not change any validation outcome. -/
def jsLowerChar (c : Char) : Char :=
  if 'A' ≤ c && c ≤ 'Z' then Char.ofNat (c.toNat + 32) else c

/-- Lowercase a character list (model of `toLowerCase`). -/
def jsLower (l : List Char) : List Char :=
  l.map jsLowerChar

/-- Lowercase a string (model of `toLowerCase`). -/
def jsLowerStr (s : String) : String :=
  String.mk (jsLower s.data)

/-- Case-insensitive prefix test: does `s` start with `pat`, comparing
lowercased characters? -/
def startsWithCI (pat s : List Char) : Bool :=
  (jsLower pat).isPrefixOf (jsLower s)

/-- Case-sensitive prefix test. -/
def startsWithCS (pat s : List Char) : Bool :=
  pat.isPrefixOf s

/-- Does `pat` occur (case-sensitively) as a contiguous substring of `s`?
This is the boolean content of `s.includes(pat)` and of a regex test for a
literal pattern without the `i` flag. -/
def containsSub (pat : List Char) : List Char → Bool
  | [] => pat.isEmpty
  | c :: cs => pat.isPrefixOf (c :: cs) || containsSub pat cs

/-- Case-insensitive substring test: the boolean content of
`s.match(/pat/i)` for a literal pattern `pat`. -/
def containsSubCI (pat s : List Char) : Bool :=
  containsSub (jsLower pat) (jsLower s)

/-- Boolean test of an alternation regex `/a|b|c/i` against a subject, as in
`subject.match(/urgent|asap|immediate/i)`: some alternative occurs in the
subject, compared case-insensitively. -/
def jsTestAlternatives (alts : List String) (s : String) : Bool :=
  alts.any (fun p => containsSubCI p.data s.data)

/-- Leftmost-match scan of a regex-style matcher over every start position of
the input: the result at the first (leftmost) position where the matcher
succeeds, as a JavaScript regex `match` would return. -/
def scanFirst {α : Type} (f : List Char → Option α) : List Char → Option α
  | [] => f []
  | c :: cs =>
    match f (c :: cs) with
    | some a => some a
    | none => scanFirst f cs

/-- Digit-string to number (`Number(k)` for a key matching `/^\d+$/`). -/
def digitsToNat (l : List Char) : Nat :=
  l.foldl (fun n c => n * 10 + (c.toNat - 48)) 0

/-- Insert into an ascending list by a numeric key (helper for the model of
`Array.prototype.sort` with comparator `Number(a) - Number(b)`; the keys
sorted in this code base are distinct, so stability is irrelevant). -/
def insertByNat (key : String → Nat) (a : String) : List String → List String
  | [] => [a]
  | b :: bs => if key a ≤ key b then a :: b :: bs else b :: insertByNat key a bs

/-- Sort strings ascending by a numeric key. -/
def sortByNat (key : String → Nat) (l : List String) : List String :=
  l.foldr (insertByNat key) []

/-- Escape one character for `JSON.stringify` string output. -/
def jsonEscapeChar (c : Char) : List Char :=
  if c = '"' then ['\\', '"']
  else if c = '\\' then ['\\', '\\']
  else if c = '\n' then ['\\', 'n']
  else if c = '\r' then ['\\', 'r']
  else if c = '\t' then ['\\', 't']
  else if c.val = 8 then ['\\', 'b']
  else if c.val = 12 then ['\\', 'f']
  else if c.val < 32 then
    ['\\', 'u', '0', '0',
     (Nat.digitChar (c.toNat / 16)), (Nat.digitChar (c.toNat % 16))]
  else [c]

/-- `JSON.stringify` of a string value (quotes plus escaping). -/
def jsonQuote (s : String) : String :=
  String.mk ('"' :: (s.data.flatMap jsonEscapeChar) ++ ['"'])

/- Model of `JSON.stringify` (no spacing, insertion-ordered keys), as used
by the handler to serialize array payloads before regex extraction. -/
mutual

/-- JSON serialization of a value, exactly as `JSON.stringify` renders it. -/
def Json.stringify : Json → String
  | .null => "null"
  | .bool true => "true"
  | .bool false => "false"
  | .num n => toString n
  | .str s => jsonQuote s
  | .arr items => "[" ++ stringifyElems items ++ "]"
  | .obj kvs => "\x7b" ++ stringifyProps kvs ++ "\x7d"

/-- Comma-separated serialization of array elements. -/
def stringifyElems : JsonList → String
  | .nil => ""
  | .cons j .nil => Json.stringify j
  | .cons j rest => Json.stringify j ++ "," ++ stringifyElems rest

/-- Comma-separated serialization of object properties. -/
def stringifyProps : JsonProps → String
  | .nil => ""
  | .cons k v .nil => jsonQuote k ++ ":" ++ Json.stringify v
  | .cons k v rest => jsonQuote k ++ ":" ++ Json.stringify v ++ "," ++ stringifyProps rest

end

/-- The opening-brace character, written via its code point. -/
def lbrace : Char := Char.ofNat 123

/-- The closing-brace character, written via its code point. -/
def rbrace : Char := Char.ofNat 125

/-- Whitespace accepted between tokens by `JSON.parse`. -/
def isJsonWs (c : Char) : Bool :=
  c = ' ' || c = '\t' || c = '\n' || c = '\r'

/-- Is the character a hexadecimal digit? -/
def isHexDig (c : Char) : Bool :=
  c.isDigit || ('a' ≤ c && c ≤ 'f') || ('A' ≤ c && c ≤ 'F')

/-- Value of a hexadecimal digit. -/
def hexDigitVal (c : Char) : Nat :=
  if c.isDigit then c.toNat - 48
  else if 'a' ≤ c && c ≤ 'f' then c.toNat - 87
  else c.toNat - 55

/-- Parse the body of a JSON string literal after the opening quote,
returning the decoded content and the input after the closing quote.
`none` models a SyntaxError. Lone `\uXXXX` surrogates are mapped to the
null character by `Char.ofNat`; they do not occur in any input this
development evaluates. The fuel argument dominates the input length. -/
def parseJsonStringBody : Nat → List Char → Option (List Char × List Char)
  | 0, _ => none
  | Nat.succ fuel, cs =>
    match cs with
    | [] => none
    | '"' :: rest => some ([], rest)
    | '\\' :: rest =>
      match rest with
      | [] => none
      | e :: rest2 =>
        let esc : Option (Char × List Char) :=
          if e = '"' then some ('"', rest2)
          else if e = '\\' then some ('\\', rest2)
          else if e = '/' then some ('/', rest2)
          else if e = 'b' then some (Char.ofNat 8, rest2)
          else if e = 'f' then some (Char.ofNat 12, rest2)
          else if e = 'n' then some ('\n', rest2)
          else if e = 'r' then some ('\r', rest2)
          else if e = 't' then some ('\t', rest2)
          else if e = 'u' then
            match rest2 with
            | h1 :: h2 :: h3 :: h4 :: rest3 =>
              if isHexDig h1 && isHexDig h2 && isHexDig h3 && isHexDig h4 then
                some (Char.ofNat
                  (hexDigitVal h1 * 4096 + hexDigitVal h2 * 256 +
                   hexDigitVal h3 * 16 + hexDigitVal h4), rest3)
              else none
            | _ => none
          else none
        match esc with
        | some (c, rest3) =>
          (parseJsonStringBody fuel rest3).map (fun p => (c :: p.1, p.2))
        | none => none
    | c :: rest =>
      if c.val < 32 then none
      else (parseJsonStringBody fuel rest).map (fun p => (c :: p.1, p.2))

/-- Parse a JSON number. Fractional and exponent parts are not modeled
(no fractional number occurs in any input this development evaluates; a
payload containing one is treated as unparsable). Leading zeros are
rejected as `JSON.parse` does. -/
def parseJsonNumber (cs : List Char) : Option (Int × List Char) :=
  let (neg, cs1) := match cs with
    | '-' :: t => (true, t)
    | _ => (false, cs)
  let digits := cs1.takeWhile Char.isDigit
  let rest := cs1.drop digits.length
  if digits.isEmpty then none
  else if digits.length > 1 && digits.head? = some '0' then none
  else
    match rest with
    | '.' :: _ => none
    | 'e' :: _ => none
    | 'E' :: _ => none
    | _ =>
      let n : Int := Int.ofNat (digitsToNat digits)
      some (if neg then -n else n, rest)

mutual

/-- Parse one JSON value (model of the recursive descent of `JSON.parse`).
Fuel decreases once per recursive step and each step consumes at least one
input character, so a fuel of input length plus a constant is ample. -/
def parseJsonValue : Nat → List Char → Option (Json × List Char)
  | 0, _ => none
  | Nat.succ fuel, input =>
    let cs := input.dropWhile isJsonWs
    match cs with
    | [] => none
    | c :: rest =>
      if c = 'n' then
        if ['u', 'l', 'l'].isPrefixOf rest then some (.null, rest.drop 3) else none
      else if c = 't' then
        if ['r', 'u', 'e'].isPrefixOf rest then some (.bool true, rest.drop 3) else none
      else if c = 'f' then
        if ['a', 'l', 's', 'e'].isPrefixOf rest then some (.bool false, rest.drop 4) else none
      else if c = '"' then
        (parseJsonStringBody (rest.length + 1) rest).map
          (fun p => (.str (String.mk p.1), p.2))
      else if c = '[' then
        let rest2 := rest.dropWhile isJsonWs
        if rest2.head? = some ']' then some (.arr .nil, rest2.drop 1)
        else (parseJsonElems fuel rest).map (fun p => (.arr (JsonList.ofList p.1), p.2))
      else if c = lbrace then
        let rest2 := rest.dropWhile isJsonWs
        if rest2.head? = some rbrace then some (.obj .nil, rest2.drop 1)
        else (parseJsonMembers fuel rest).map (fun p => (.obj (JsonProps.ofList p.1), p.2))
      else if c = '-' || c.isDigit then
        (parseJsonNumber cs).map (fun p => (.num p.1, p.2))
      else none

/-- Parse the non-empty element list of a JSON array up to `]`. -/
def parseJsonElems : Nat → List Char → Option (List Json × List Char)
  | 0, _ => none
  | Nat.succ fuel, cs =>
    (parseJsonValue fuel cs).bind (fun p =>
      let r2 := p.2.dropWhile isJsonWs
      match r2 with
      | ']' :: rr => some ([p.1], rr)
      | ',' :: rr => (parseJsonElems fuel rr).map (fun q => (p.1 :: q.1, q.2))
      | _ => none)

/-- Parse the non-empty member list of a JSON object up to the closing brace. -/
def parseJsonMembers : Nat → List Char → Option (List (String × Json) × List Char)
  | 0, _ => none
  | Nat.succ fuel, cs =>
    let cs2 := cs.dropWhile isJsonWs
    match cs2 with
    | [] => none
    | c :: rest =>
      if c = '"' then
        (parseJsonStringBody (rest.length + 1) rest).bind (fun kp =>
          let r2 := kp.2.dropWhile isJsonWs
          match r2 with
          | ':' :: r3 =>
            (parseJsonValue fuel r3).bind (fun vp =>
              let r5 := vp.2.dropWhile isJsonWs
              match r5 with
              | c2 :: r6 =>
                if c2 = rbrace then some ([(String.mk kp.1, vp.1)], r6)
                else if c2 = ',' then
                  (parseJsonMembers fuel r6).map
                    (fun q => ((String.mk kp.1, vp.1) :: q.1, q.2))
                else none
              | [] => none)
          | _ => none)
      else none

end

/-- Model of `JSON.parse`: `none` models a thrown `SyntaxError` (every call
site in the handler wraps `JSON.parse` in try/catch, so a parse failure is
always a normal negative outcome). Trailing non-whitespace is rejected. -/
def jsonParse (s : String) : Option Json :=
  match parseJsonValue (s.length + 8) s.data with
  | some (v, rest) => if (rest.dropWhile isJsonWs).isEmpty then some v else none
  | none => none

/-- Character class removed by the sanitizers: the regex `[\x00-\x1F\x7F]`
(ASCII control characters including newline and carriage return). -/
def isCtrlChar (c : Char) : Bool :=
  c.val ≤ 31 || c.val = 127

/-- Characters allowed in the local part by the validator regex
`[a-zA-Z0-9._%+-]`. -/
def isEmailLocalChar (c : Char) : Bool :=
  c.isAlpha || c.isDigit || c = '.' || c = '_' || c = '%' || c = '+' || c = '-'

/-- Characters allowed in the domain part by the validator regex
`[a-zA-Z0-9.-]`. -/
def isEmailDomainChar (c : Char) : Bool :=
  c.isAlpha || c.isDigit || c = '.' || c = '-'

/-- Full-match test of the domain part `[a-zA-Z0-9.-]+\.[a-zA-Z]{2,}$`.
Because the final `[a-zA-Z]{2,}` cannot contain a dot and is anchored at the
end, the only split the regex can use is at the last dot; this function
tests exactly that split. -/
def emailDomainTest (rest : List Char) : Bool :=
  let tld := (rest.reverse.takeWhile (· ≠ '.')).reverse
  let pre := rest.take (rest.length - tld.length - 1)
  decide (tld.length < rest.length) && !pre.isEmpty &&
    pre.all isEmailDomainChar && decide (2 ≤ tld.length) && tld.all Char.isAlpha

/-- Full-match test of `/^[a-zA-Z0-9._%+-]+@[a-zA-Z0-9.-]+\.[a-zA-Z]{2,}$/`.
No character class of the regex contains `@`, so the single `@` of the
pattern must match the first `@` of the input; the input is split there. -/
def emailRegexTest (cs : List Char) : Bool :=
  let localPart := cs.takeWhile (· ≠ '@')
  let rest := cs.drop (localPart.length + 1)
  !localPart.isEmpty && localPart.all isEmailLocalChar &&
    decide (localPart.length < cs.length) && emailDomainTest rest

/-- Model of `validateAndSanitizeEmail` (functions/src/index.ts): trim and
lowercase the address, validate it against the conservative RFC-style
pattern, reject addresses longer than 254 characters; `null` (here `none`)
on any failure, including a non-string argument. -/
def validateAndSanitizeEmail (email : Json) : Option String :=
  if !email.truthy || !email.isStr then none
  else
    match email with
    | .str s =>
      let cleaned := jsLower (jsTrim s.data)
      if !emailRegexTest cleaned then none
      else if 254 < cleaned.length then none
      else some (String.mk cleaned)
    | _ => none

/-- Model of `extractUserIdFromEmail`: validate and sanitize the address,
then return the capture of `/^([^@]+)@/` on the sanitized address (the
local part before the first `@`). -/
def extractUserIdFromEmail (emailAddress : Json) : Option String :=
  match validateAndSanitizeEmail emailAddress with
  | none => none
  | some sanitizedEmail =>
    let localPart := sanitizedEmail.data.takeWhile (· ≠ '@')
    if localPart.isEmpty || sanitizedEmail.data.length ≤ localPart.length then none
    else some (String.mk localPart)

/-- Model of `sanitizeSubject`: strip angle brackets, strip control
characters, trim, truncate to 200 characters; the default `Email Task` for
a non-string, empty or fully-stripped subject. -/
def sanitizeSubject (subject : Json) : String :=
  if !subject.truthy || !subject.isStr then "Email Task"
  else
    match subject with
    | .str s =>
      let noAngle := s.data.filter (fun c => !(c = '<' || c = '>'))
      let noCtrl := noAngle.filter (fun c => !isCtrlChar c)
      let cleaned := (jsTrim noCtrl).take 200
      if cleaned.isEmpty then "Email Task" else String.mk cleaned
    | _ => "Email Task"

/-- Replace every non-overlapping leftmost occurrence of `pat` by `rep`
(JavaScript `replace` with a global literal pattern). The fuel dominates
the input length; every step consumes at least one input character. -/
def replaceAllGo (pat rep : List Char) : Nat → List Char → List Char
  | _, [] => []
  | 0, l => l
  | Nat.succ fuel, c :: cs =>
    if !pat.isEmpty && pat.isPrefixOf (c :: cs) then
      rep ++ replaceAllGo pat rep fuel (cs.drop (pat.length - 1))
    else c :: replaceAllGo pat rep fuel cs

/-- Replace every occurrence of the literal `pat` by `rep`. -/
def replaceAll (pat rep : String) (l : List Char) : List Char :=
  replaceAllGo pat.data rep.data l.length l

/-- Model of `sanitizeTextContent`: strip angle brackets and control
characters, decode the five basic HTML entities, trim, truncate to 5000
characters; the empty string for a non-string or falsy argument. -/
def sanitizeTextContent (text : Json) : String :=
  if !text.truthy || !text.isStr then ""
  else
    match text with
    | .str s =>
      let noAngle := s.data.filter (fun c => !(c = '<' || c = '>'))
      let noCtrl := noAngle.filter (fun c => !isCtrlChar c)
      let d1 := replaceAll "&quot;" "\"" noCtrl
      let d2 := replaceAll "&amp;" "&" d1
      let d3 := replaceAll "&lt;" "<" d2
      let d4 := replaceAll "&gt;" ">" d3
      let d5 := replaceAll "&#39;" "'" d4
      String.mk ((jsTrim d5).take 5000)
    | _ => ""

/-- A calendar date (proleptic Gregorian), modeling the date components of a
JavaScript `Date` in the server's local time. -/
structure CalDate where
  year : Nat
  month : Nat
  day : Nat
deriving DecidableEq

/-- Gregorian leap-year rule. -/
def isLeapYear (y : Nat) : Bool :=
  (y % 4 = 0 && y % 100 != 0) || y % 400 = 0

/-- Number of days in a month. -/
def daysInMonth (y m : Nat) : Nat :=
  if m = 2 then (if isLeapYear y then 29 else 28)
  else if m = 4 || m = 6 || m = 9 || m = 11 then 30
  else 31

/-- The calendar day after a date (the rollover `setDate(getDate() + 1)`
performs). -/
def nextCalDay (d : CalDate) : CalDate :=
  if d.day < daysInMonth d.year d.month then ⟨d.year, d.month, d.day + 1⟩
  else if d.month < 12 then ⟨d.year, d.month + 1, 1⟩
  else ⟨d.year + 1, 1, 1⟩

/-- Add `n` calendar days (`setDate(getDate() + n)`). -/
def addCalendarDays (d : CalDate) (n : Nat) : CalDate :=
  Nat.repeat nextCalDay n d

/-- Model of `new Date("YYYY-MM-DD")` for the digit groups captured by the
due-date regex: a valid calendar date, or `none` for the Invalid Date (NaN)
value that `Date` produces when the digits denote no real calendar date
(month outside 1..12 or day outside the month's range). -/
def jsDateFromYMD (y m d : Nat) : Option CalDate :=
  if 1 ≤ m && m ≤ 12 && 1 ≤ d && d ≤ daysInMonth y m then some ⟨y, m, d⟩ else none

/-- Matcher for `/due:\s*(\d{4}-\d{2}-\d{2})/i` at one start position:
literal `due:` (case-insensitive), greedy whitespace (no backtracking is
possible because whitespace characters are not digits), then the digit
groups. Returns the captured year, month and day digits. -/
def matchDueAt (s : List Char) : Option (Nat × Nat × Nat) :=
  if startsWithCI "due:".data s then
    let rest := (s.drop 4).dropWhile isRegexWs
    match rest with
    | y1 :: y2 :: y3 :: y4 :: '-' :: m1 :: m2 :: '-' :: d1 :: d2 :: _ =>
      if [y1, y2, y3, y4, m1, m2, d1, d2].all Char.isDigit then
        some (digitsToNat [y1, y2, y3, y4], digitsToNat [m1, m2], digitsToNat [d1, d2])
      else none
    | _ => none
  else none

/-- Leftmost match of the due-date regex over the whole subject. -/
def findDueMarker (subject : String) : Option (Nat × Nat × Nat) :=
  scanFirst matchDueAt subject.data

/-- Model of `extractDueDateFromSubject`: the explicit `due: YYYY-MM-DD`
marker first (parsed with `new Date`, possibly an Invalid Date, here the
inner `none`), then the literal substrings `tomorrow` (today plus one day)
and `next week` (today plus seven days), else no due date (outer `none`).
`today` is the request-processing date (`new Date()` in the source). -/
def extractDueDateFromSubject (today : CalDate) (subject : String) : Option (Option CalDate) :=
  match findDueMarker subject with
  | some (y, m, d) => some (jsDateFromYMD y m d)
  | none =>
    if containsSubCI "tomorrow".data subject.data then some (some (addCalendarDays today 1))
    else if containsSubCI "next week".data subject.data then some (some (addCalendarDays today 7))
    else none

/-- Model of `extractImportanceFromSubject`: 9 for the urgent alternation,
7 for high/important, 3 for low/minor, else the default 5. -/
def extractImportanceFromSubject (subject : String) : Nat :=
  if jsTestAlternatives ["urgent", "asap", "immediate"] subject then 9
  else if jsTestAlternatives ["high", "important"] subject then 7
  else if jsTestAlternatives ["low", "minor"] subject then 3
  else 5

/-- The reply/forward markers of `/^(Fwd|Re|Fw|Forward|Reply):\s*/i` in
alternation order. At most one alternative can be followed by a colon at
the start of a given subject (their colon-extended forms are pairwise
non-overlapping), so trying them in order is exactly the regex semantics. -/
def replyMarkers : List String := ["Fwd", "Re", "Fw", "Forward", "Reply"]

/-- Strip one leading reply/forward marker and the whitespace after it
(the single, non-global `replace` of `parseEmailToTask`). -/
def stripReplyMarker (s : List Char) : List Char :=
  match replyMarkers.find? (fun m => startsWithCI (m.data ++ [':']) s) with
  | some m => (s.drop (m.length + 1)).dropWhile isRegexWs
  | none => s

/-- The cleaned subject of `parseEmailToTask`: sanitize, strip one
reply/forward marker, trim, and fall back to `Email Task` when empty. -/
def cleanEmailSubject (subject : String) : String :=
  let rawSubject := sanitizeSubject (Json.str subject)
  let t := jsTrim (stripReplyMarker rawSubject.data)
  if t.isEmpty then "Email Task" else String.mk t

/-- Split a character list into lines at `\n` (the line division used by the
`m`-flagged regexes of `cleanEmailBody`; the bodies this code processes use
`\n` line endings). -/
def splitLines : List Char → List (List Char)
  | [] => [[]]
  | c :: cs =>
    if c = '\n' then [] :: splitLines cs
    else
      match splitLines cs with
      | [] => [[c]]
      | l :: ls => (c :: l) :: ls

/-- Join lines back with `\n`. -/
def joinLines (ls : List (List Char)) : List Char :=
  (ls.intersperse ['\n']).flatten

/-- Model of `replace(/<[^>]*>/g, '')`: remove every span from a `<` to the
next `>`; a `<` with no later `>` cannot be matched and stays. The fuel
dominates the input length; every step consumes at least one character. -/
def stripTagsGo : Nat → List Char → List Char
  | _, [] => []
  | 0, l => l
  | Nat.succ fuel, c :: cs =>
    if c = '<' then
      match cs.dropWhile (· ≠ '>') with
      | '>' :: rest => stripTagsGo fuel rest
      | _ => c :: stripTagsGo fuel cs
    else c :: stripTagsGo fuel cs

/-- Remove every `<...>` span. -/
def stripTags (l : List Char) : List Char :=
  stripTagsGo l.length l

/-- First suffix of the line at which one of the labels starts
(case-insensitively): the position the lookahead of
`/^.*?(?=L1|L2|...)/gim` finds. -/
def findLabelSuffix (labels : List String) : List Char → Option (List Char)
  | [] => none
  | c :: cs =>
    if labels.any (fun L => startsWithCI L.data (c :: cs)) then some (c :: cs)
    else findLabelSuffix labels cs

/-- Delete the part of a line before the first label occurrence; a line
without a label is unchanged (the regex simply does not match there). -/
def dropBeforeLabel (labels : List String) (line : List Char) : List Char :=
  (findLabelSuffix labels line).getD line

/-- Model of `replace(/^.*?(?=L1|L2|...)/gim, '')`: on every line, delete
the prefix before the first occurrence of one of the labels. -/
def headerPrefixStrip (labels : List String) (l : List Char) : List Char :=
  joinLines ((splitLines l).map (dropBeforeLabel labels))

/-- Model of `replace(/^>.*$/gm, '')`: empty every line starting with `>`
(the line terminator itself is kept). -/
def removeQuotedLines (l : List Char) : List Char :=
  joinLines ((splitLines l).map (fun ln => if ln.head? = some '>' then [] else ln))

/-- Index of the last `\n` in a list known to contain one. -/
def lastNlIdx (w : List Char) : Nat :=
  w.length - 1 - (w.reverse.takeWhile (· ≠ '\n')).length

/-- Model of the single, non-global signature `replace` whose pattern (with
flag m) is two dashes, `\s*`, `\n`, `.*$`: at the
first `--` whose following whitespace run contains a `\n`, the greedy
`\s*` backtracks to the last `\n` of the run, the explicit `\n` consumes
it, and `.*$` consumes the remainder of the following line; everything
after that line's end is kept verbatim. The fuel dominates the length. -/
def removeSignatureGo : Nat → List Char → List Char
  | _, [] => []
  | 0, l => l
  | Nat.succ fuel, c :: cs =>
    if c = '-' then
      match cs with
      | '-' :: after =>
        let w := after.takeWhile isRegexWs
        if w.contains '\n' then
          let j := lastNlIdx w
          let afterNl := after.drop (j + 1)
          afterNl.dropWhile (· ≠ '\n')
        else c :: removeSignatureGo fuel cs
      | _ => c :: removeSignatureGo fuel cs
    else c :: removeSignatureGo fuel cs

/-- Remove the first signature block (see `removeSignatureGo`). -/
def removeSignature (l : List Char) : List Char :=
  removeSignatureGo l.length l

/-- Model of `replace(/\n\s*\n/g, '\n\n')`: at a `\n` whose following
whitespace run contains another `\n`, the greedy `\s*` backtracks to the
run's last `\n`; the whole span is replaced by two newlines and scanning
resumes after it. The fuel dominates the input length. -/
def collapseBlankGo : Nat → List Char → List Char
  | _, [] => []
  | 0, l => l
  | Nat.succ fuel, c :: cs =>
    if c = '\n' then
      let w := cs.takeWhile isRegexWs
      if w.contains '\n' then
        let j := lastNlIdx w
        '\n' :: '\n' :: collapseBlankGo fuel (cs.drop (j + 1))
      else c :: collapseBlankGo fuel cs
    else c :: collapseBlankGo fuel cs

/-- Collapse runs of blank lines (see `collapseBlankGo`). -/
def collapseBlank (l : List Char) : List Char :=
  collapseBlankGo l.length l

/-- Largest index `j ≥ 1` of a `\n` in `w` (the backtracking target of a
`\s+` that must be non-empty and leave a `$`-matching position). -/
def lastNlIdxFrom1 (w : List Char) : Option Nat :=
  if w.contains '\n' then
    let j := lastNlIdx w
    if 1 ≤ j then some j else none
  else none

/-- Model of `replace(/^\s+|\s+$/gm, '')` with its exact scanning
semantics: `\s` also matches `\n`, so a leading-whitespace match at a line
start may swallow line terminators, and a `\s+$` match ends before the last
`\n` of a whitespace run. `bol` records whether the current scan position
is at a line start (string start or just after `\n`). Every step consumes
at least one character, so the fuel dominates the input length. -/
def perLineTrimGo : Nat → Bool → List Char → List Char
  | _, _, [] => []
  | 0, _, l => l
  | Nat.succ fuel, bol, c :: cs =>
    if isRegexWs c then
      if bol then
        let w := cs.takeWhile isRegexWs
        perLineTrimGo fuel ((c :: w).getLast? == some '\n') (cs.drop w.length)
      else
        let w := c :: cs.takeWhile isRegexWs
        let rest := cs.drop (w.length - 1)
        if rest.isEmpty then []
        else
          match lastNlIdxFrom1 w with
          | some j =>
            perLineTrimGo fuel (w.get? (j - 1) == some '\n') (w.drop j ++ rest)
          | none => c :: perLineTrimGo fuel (c = '\n') cs
    else c :: perLineTrimGo fuel (c = '\n') cs

/-- Trim each line (see `perLineTrimGo`); scanning starts at a line start. -/
def perLineTrim (l : List Char) : List Char :=
  perLineTrimGo l.length true l

/-- Model of `split(/\n\s*\n/)`: cut the input at every match of the
blank-line pattern (same match semantics as `collapseBlankGo`). -/
def splitParagraphsGo : Nat → List Char → List Char → List (List Char)
  | _, acc, [] => [acc.reverse]
  | 0, acc, l => [acc.reverse ++ l]
  | Nat.succ fuel, acc, c :: cs =>
    if c = '\n' then
      let w := cs.takeWhile isRegexWs
      if w.contains '\n' then
        let j := lastNlIdx w
        acc.reverse :: splitParagraphsGo fuel [] (cs.drop (j + 1))
      else splitParagraphsGo fuel (c :: acc) cs
    else splitParagraphsGo fuel (c :: acc) cs

/-- Split into paragraphs at blank-line separators. -/
def splitParagraphs (l : List Char) : List (List Char) :=
  splitParagraphsGo l.length [] l

/-- Model of `cleanEmailBody`: strip HTML tags, delete forwarded-header
prefixes, quoted lines and the first signature block, delete prefixes
before forwarding markers, collapse blank lines and trim each line and the
whole; if fewer than 50 characters remain, fall back to the first paragraph
of the tag-stripped original longer than 20 characters; if still nothing,
the fixed placeholder. -/
def cleanEmailBody (body : String) : String :=
  let textOnly := stripTags body.data
  let withoutHeaders := headerPrefixStrip ["From:", "To:", "Subject:", "Date:", "Sent:", "Cc:", "Bcc:"] textOnly
  let withoutQuotes := removeQuotedLines withoutHeaders
  let withoutSignature := removeSignature withoutQuotes
  let withoutForwardMarkers := headerPrefixStrip ["Original Message", "From:", "Sent:"] withoutSignature
  let cleaned := jsTrim (perLineTrim (collapseBlank withoutForwardMarkers))
  if cleaned.length < 50 then
    match (splitParagraphs textOnly).find? (fun p => 20 < (jsTrim p).length) with
    | some p =>
      let t := jsTrim p
      if t.isEmpty then "No description provided" else String.mk t
    | none => if cleaned.isEmpty then "No description provided" else String.mk cleaned
  else if cleaned.isEmpty then "No description provided" else String.mk cleaned

/-- The normalized email record handed to `parseEmailToTask`; absent bodies
are the empty string, exactly what the caller passes after sanitization. -/
structure EmailMessage where
  «from» : String
  «to» : String
  subject : String
  text : String
  html : String
  receivedAt : CalDate

/-- The provenance block of a task created from email. -/
structure EmailSource where
  sender : String
  receivedAt : CalDate
  originalSubject : String

/-- The task draft derived from an email (`EmailTask` in the source).
`dueDate` is `none` when no due date was inferred; `some none` models a
present but Invalid Date value. -/
structure EmailTask where
  title : String
  description : String
  area : String
  importance : Nat
  dueDate : Option (Option CalDate)
  emailSource : EmailSource

/-- Clamp of the importance written to the task:
`Math.max(1, Math.min(10, importance || 5))`. -/
def clampImportance (importance : Nat) : Nat :=
  max 1 (min 10 (if importance = 0 then 5 else importance))

/-- The raw body selected by `parseEmailToTask`:
`email.text || email.html || ''`. -/
def emailRawBody (email : EmailMessage) : String :=
  if email.text != "" then email.text
  else if email.html != "" then email.html
  else ""

/-- The description produced by `parseEmailToTask`: the cleaned, sanitized
body, with the fixed placeholder when nothing remains. -/
def emailDescription (email : EmailMessage) : String :=
  let d := sanitizeTextContent (Json.str (cleanEmailBody (emailRawBody email)))
  if d = "" then "No description provided" else d

/-- Model of `parseEmailToTask`: clean the subject into a title, infer due
date and importance from the cleaned subject, clean and sanitize the body
(text preferred over html) into a description with a fixed placeholder
fallback, clamp importance into [1,10], and record provenance with the
sanitized sender and the pre-cleaning (but sanitized) subject. `today` is
the processing date used by the due-date inference. -/
def parseEmailToTask (today : CalDate) (email : EmailMessage) : EmailTask :=
  { title := cleanEmailSubject email.subject
    description := emailDescription email
    area := "inbox"
    importance := clampImportance (extractImportanceFromSubject (cleanEmailSubject email.subject))
    dueDate := extractDueDateFromSubject today (cleanEmailSubject email.subject)
    emailSource :=
      { sender := (validateAndSanitizeEmail (Json.str email.«from»)).getD "unknown@sender.com"
        receivedAt := email.receivedAt
        originalSubject := sanitizeSubject (Json.str email.subject) } }

/-- Is the value exactly `null`? -/
def Json.isNull : Json → Bool
  | .null => true
  | _ => false

/-- The working extraction state of the handler: the five field variables
`from`, `to`, `subject`, `text`, `html` declared at the top of
`processEmailTask`, each possibly still `undefined`. -/
structure Extracted where
  «from» : Option Json
  «to» : Option Json
  subject : Option Json
  text : Option Json
  html : Option Json

/-- The initial extraction state (all five variables undefined). -/
def emptyExtracted : Extracted := ⟨none, none, none, none, none⟩

/-- Assignment `x = m[1]` guarded by `if (m)`: keep the old value when the
regex did not match. -/
def setMatch (m : Option String) (old : Option Json) : Option Json :=
  match m with
  | some v => some (.str v)
  | none => old

/-- Assignment `x = typeof v === 'string' ? v : x`. -/
def setIfString (v : Option Json) (old : Option Json) : Option Json :=
  match v with
  | some (.str s) => some (.str s)
  | _ => old

/-- Set `from`/`to`/`subject` from the string-typed fields of a headers (or
direct-fields) object, keeping old values for non-string fields. -/
def headerFieldsSet (hdrs : Json) (st : Extracted) : Extracted :=
  { st with «from» := setIfString (hdrs.getProp "from") st.«from»,
            «to» := setIfString (hdrs.getProp "to") st.«to»,
            subject := setIfString (hdrs.getProp "subject") st.subject }

/-- Does the object carry any of the five e-mail marker fields
(`from`/`to`/`subject`/`sender`/`recipient`) with a truthy value? -/
def hasEmailKeys (v : Json) : Bool :=
  truthyOpt (v.getProp "from") || truthyOpt (v.getProp "to") ||
  truthyOpt (v.getProp "subject") || truthyOpt (v.getProp "sender") ||
  truthyOpt (v.getProp "recipient")

/-- The per-element scan for arrays of at most 100 elements (handler lines
for the small-array branch): adopt the first element that is a truthy
object with an e-mail marker field; a non-empty string element is
JSON-parsed and the parsed value tested the same way. -/
def smallArrayScan : List Json → Option Json
  | [] => none
  | item :: rest =>
    if item.truthy && item.isObjectType && hasEmailKeys item then some item
    else
      match item with
      | .str s =>
        if s != "" then
          match jsonParse s with
          | some parsed =>
            if parsed.truthy && parsed.isObjectType && hasEmailKeys parsed then some parsed
            else smallArrayScan rest
          | none => smallArrayScan rest
        else smallArrayScan rest
      | _ => smallArrayScan rest

/-- The literal character list of a quoted JSON key followed by a colon. -/
def keyColonQuoted (key : String) : List Char :=
  '"' :: key.data ++ ['"', ':']

/-- Prefix test that is case-insensitive exactly when `ci` holds. -/
def matchesAt (ci : Bool) (pat s : List Char) : Bool :=
  if ci then startsWithCI pat s else startsWithCS pat s

/-- Does the captured token contain an `@` at an interior position? This is
when a capture group of shape `X+@X+` (for a class `X` containing `@`) can
match the whole token. -/
def hasInteriorAt (tok : List Char) : Bool :=
  ((tok.drop 1).dropLast).contains '@'

/-- Matcher at one position for the quoted-key patterns
`/"key":\s*"([^"]+)"/` (optionally case-insensitive, optionally requiring
an interior `@` as in `([^"]+@[^"]+)`). The greedy `\s*` needs no
backtracking because the following `"` is not whitespace. -/
def matchQuotedKeyAt (ci needAt : Bool) (key : String) (s : List Char) : Option (List Char) :=
  let pat := keyColonQuoted key
  if matchesAt ci pat s then
    let rest := (s.drop pat.length).dropWhile isRegexWs
    match rest with
    | '"' :: content =>
      let tok := content.takeWhile (· ≠ '"')
      if tok.isEmpty || content.length ≤ tok.length then none
      else if needAt && !hasInteriorAt tok then none
      else some tok
    | _ => none
  else none

/-- Leftmost match of a quoted-key pattern over the whole string. -/
def jsMatchQuotedKey (ci needAt : Bool) (key : String) (s : String) : Option String :=
  (scanFirst (matchQuotedKeyAt ci needAt key) s.data).map String.mk

/-- Character class `[^,\s\n]` of the unquoted address patterns. -/
def isTokenChar (c : Char) : Bool :=
  !(c = ',') && !isRegexWs c

/-- Matcher at one position for `/key:\s*([^,\s\n]+@[^,\s\n]+)/i`. The
greedy `\s*` needs no backtracking because the token class excludes all
whitespace. -/
def matchUnquotedEmailKeyAt (key : String) (s : List Char) : Option (List Char) :=
  let pat := key.data ++ [':']
  if startsWithCI pat s then
    let rest := (s.drop pat.length).dropWhile isRegexWs
    let tok := rest.takeWhile isTokenChar
    if !tok.isEmpty && hasInteriorAt tok then some tok else none
  else none

/-- Leftmost match of an unquoted address pattern. -/
def jsMatchUnquotedEmailKey (key : String) (s : String) : Option String :=
  (scanFirst (matchUnquotedEmailKeyAt key) s.data).map String.mk

/-- Character class `[^",\n]` of the massive-array sample patterns. -/
def isSampleTokChar (c : Char) : Bool :=
  !(c = '"') && !(c = ',') && !(c = '\n')

/-- Capture attempt for `([^",\n]+@[^",\n]+)` at a position. -/
def sampleCaptureAt (r : List Char) : Option (List Char) :=
  let tok := r.takeWhile isSampleTokChar
  if !tok.isEmpty && hasInteriorAt tok then some tok else none

/-- Matcher at one position for the massive-array sample pattern
`/(?:"key"|key):\s*"?([^",\n]+@[^",\n]+)"?/i`. The greedy `\s*` backtracks
(the capture class contains spaces), so every split of the whitespace run
is tried from longest to shortest; the optional quote is consumed greedily
with fallback. -/
def matchSampleEmailKeyAt (key : String) (s : List Char) : Option (List Char) :=
  let qpat := keyColonQuoted key
  let upat := key.data ++ [':']
  let afterKey : Option (List Char) :=
    if startsWithCI qpat s then some (s.drop qpat.length)
    else if startsWithCI upat s then some (s.drop upat.length)
    else none
  match afterKey with
  | none => none
  | some rest =>
    let wlen := (rest.takeWhile isRegexWs).length
    ((List.range (wlen + 1)).reverse).findSome? (fun p =>
      let r := rest.drop p
      match (if r.head? = some '"' then sampleCaptureAt (r.drop 1) else none) with
      | some tok => some tok
      | none => sampleCaptureAt r)

/-- Leftmost match of a sample address pattern, with the `.trim()` the
handler applies to the capture. -/
def jsMatchSampleEmailKey (key : String) (s : String) : Option String :=
  (scanFirst (matchSampleEmailKeyAt key) s.data).map (fun t => String.mk (jsTrim t))

/-- Matcher at one position for `/(?:"subject"|subject):\s*"([^"]+)"/i`
(the quoted capture needs no whitespace backtracking). -/
def matchSampleSubjectAt (s : List Char) : Option (List Char) :=
  let qpat := keyColonQuoted "subject"
  let upat := "subject".data ++ [':']
  let afterKey : Option (List Char) :=
    if startsWithCI qpat s then some (s.drop qpat.length)
    else if startsWithCI upat s then some (s.drop upat.length)
    else none
  match afterKey with
  | none => none
  | some rest =>
    match rest.dropWhile isRegexWs with
    | '"' :: content =>
      let tok := content.takeWhile (· ≠ '"')
      if tok.isEmpty || content.length ≤ tok.length then none else some tok
    | _ => none

/-- Leftmost match of the sample subject pattern, with the handler's
`.trim()` on the capture. -/
def jsMatchSampleSubject (s : String) : Option String :=
  (scanFirst matchSampleSubjectAt s.data).map (fun t => String.mk (jsTrim t))

/-- Matcher at one position for `/subject:\s*([^\n\r]+)/i`. The capture
class contains whitespace other than line terminators, so the greedy `\s*`
backtracks from the longest consumed run to the shortest. -/
def matchUnquotedSubjectAt (s : List Char) : Option (List Char) :=
  let pat := "subject".data ++ [':']
  if startsWithCI pat s then
    let rest := s.drop pat.length
    let wlen := (rest.takeWhile isRegexWs).length
    ((List.range (wlen + 1)).reverse).findSome? (fun p =>
      let r := rest.drop p
      let tok := r.takeWhile (fun c => !(c = '\n') && !(c = '\r'))
      if tok.isEmpty then none else some tok)
  else none

/-- Leftmost match of the unquoted subject pattern, with the handler's
`.trim()` on the capture. -/
def jsMatchUnquotedSubject (s : String) : Option String :=
  (scanFirst matchUnquotedSubjectAt s.data).map (fun t => String.mk (jsTrim t))

/-- Try a list of patterns in order, taking the first match (the handler's
per-field pattern loops with `break`). -/
def firstPatternMatch (pats : List (String → Option String)) (s : String) : Option String :=
  pats.findSome? (fun f => f s)

/-- The large-array branch (element count over 100): serialize the whole
array with `JSON.stringify` and extract the five fields with the
case-insensitive quoted-key patterns; fields without a match stay
undefined (this branch performs the first assignments to them). -/
def largeArrayExtract (arrJson : Json) : Extracted :=
  let arrayStr := arrJson.stringify
  { «from» := setMatch (jsMatchQuotedKey true false "from" arrayStr) none
    «to» := setMatch (jsMatchQuotedKey true false "to" arrayStr) none
    subject := setMatch (jsMatchQuotedKey true false "subject" arrayStr) none
    text := setMatch (jsMatchQuotedKey true false "body-plain" arrayStr) none
    html := setMatch (jsMatchQuotedKey true false "body-html" arrayStr) none }

/-- The array-processing stage of the handler: for an array of at most 100
elements, the per-element scan (the adopted element replaces the working
body); for a larger array, the stringify-and-regex extraction (the body
stays the array). Non-arrays pass through untouched. -/
def arrayStage : Json → Extracted × Json
  | .arr items =>
    let l := items.toList
    if l.length ≤ 100 then (emptyExtracted, (smallArrayScan l).getD (.arr items))
    else (largeArrayExtract (.arr items), .arr items)
  | j => (emptyExtracted, j)

/-- Copy `body-plain`/`body-html` string fields of a message object into
`text`/`html` (no break; other fields keep their values). -/
def bodyFieldsFromMsg (msg : Json) (st : Extracted) : Extracted :=
  let st1 := match msg.getProp "body-plain" with
    | some (.str str0) => { st with text := some (.str str0) }
    | _ => st
  match msg.getProp "body-html" with
  | some (.str str1) => { st1 with html := some (.str str1) }
  | _ => st1

/-- One object element of the array-like scan: direct `headers` (adopted
only if one of from/to/subject is truthy, then break), else a `message`
object (its `headers` adopted unconditionally with break; otherwise its
body fields copied without break), else direct fields (break). The boolean
is the `break` flag. -/
def objectItemStep (item : Json) (st : Extracted) : Extracted × Bool :=
  let hdrsO := item.getProp "headers"
  if truthyOpt hdrsO && isObjectTypeOpt hdrsO &&
     (truthyOpt (optChainProp hdrsO "from") || truthyOpt (optChainProp hdrsO "to") ||
      truthyOpt (optChainProp hdrsO "subject")) then
    (headerFieldsSet (hdrsO.getD .null) st, true)
  else
    let msgO := item.getProp "message"
    let afterMsg : Extracted × Bool :=
      if truthyOpt msgO && isObjectTypeOpt msgO then
        let msg := msgO.getD .null
        let mh := msg.getProp "headers"
        if truthyOpt mh && isObjectTypeOpt mh then (headerFieldsSet (mh.getD .null) st, true)
        else (bodyFieldsFromMsg msg st, false)
      else (st, false)
    match afterMsg with
    | (st1, true) => (st1, true)
    | (st1, false) =>
      if truthyOpt (item.getProp "from") || truthyOpt (item.getProp "to") ||
         truthyOpt (item.getProp "subject") then
        (headerFieldsSet item st1, true)
      else (st1, false)

/-- One string element of the array-like scan: JSON-parse it; a parsed
object's `headers` (or `message.headers`) is adopted with break, otherwise
its body fields are copied without break. -/
def stringItemStep (s : String) (st : Extracted) : Extracted × Bool :=
  match jsonParse s with
  | some parsed =>
    if parsed.truthy && parsed.isObjectType then
      let ph := parsed.getProp "headers"
      if truthyOpt ph && isObjectTypeOpt ph then (headerFieldsSet (ph.getD .null) st, true)
      else
        let pmh := optChainProp (parsed.getProp "message") "headers"
        if truthyOpt (parsed.getProp "message") && truthyOpt pmh && isObjectTypeOpt pmh then
          (headerFieldsSet (pmh.getD .null) st, true)
        else (bodyFieldsFromMsg parsed st, false)
    else (st, false)
  | none => (st, false)

/-- One element of the array-like scan. -/
def arrayLikeStep (item : Json) (st : Extracted) : Extracted × Bool :=
  if item.truthy && item.isObjectType then objectItemStep item st
  else
    match item with
    | .str s => if s != "" then stringItemStep s st else (st, false)
    | _ => (st, false)

/-- The array-like scan loop with its `break` semantics. -/
def arrayLikeLoop : List Json → Extracted → Extracted
  | [], st => st
  | item :: rest, st =>
    match arrayLikeStep item st with
    | (st1, true) => st1
    | (st1, false) => arrayLikeLoop rest st1

/-- The array-like-object stage of the handler: a non-array object at least
half of whose keys are purely numeric is treated as a serialized array;
its values, ordered by numeric key, are scanned for header objects or
parsable strings. The working body itself is never replaced here. -/
def arrayLikeStage (pb : Json) (st : Extracted) : Extracted :=
  match pb with
  | .obj kvs =>
    let objectKeys := (kvs.toList).map (·.1)
    let numericKeys := objectKeys.filter (fun k => k != "" && k.data.all Char.isDigit)
    if 0 < numericKeys.length && objectKeys.length / 2 ≤ numericKeys.length then
      let ordered := (sortByNat (fun k => digitsToNat k.data) numericKeys).filterMap
        (fun k => (Json.obj kvs).getProp k)
      arrayLikeLoop ordered st
    else st
  | _ => st

/-- Field extraction for the Mailgun event-data format
(`body['event-data'].message`). -/
def eventDataFields (msg : Json) : Extracted :=
  let hdr := fun k => optChainProp (msg.getProp "headers") k
  { «from» := jsOr (hdr "from") (msg.getProp "from")
    «to» := jsOr (hdr "to") (msg.getProp "to")
    subject := jsOr (hdr "subject") (msg.getProp "subject")
    text := jsOr (msg.getProp "body-plain") (jsOr (msg.getProp "stripped-text") (msg.getProp "body"))
    html := jsOr (msg.getProp "body-html") (msg.getProp "stripped-html") }

/-- Field extraction for the flat recipient format (`body.recipient`
present); also the shape of the post-array standard extraction. -/
def recipientFields (pb : Json) : Extracted :=
  { «from» := jsOr (pb.getProp "sender") (pb.getProp "from")
    «to» := jsOr (pb.getProp "recipient") (pb.getProp "to")
    subject := pb.getProp "subject"
    text := jsOr (pb.getProp "body-plain") (jsOr (pb.getProp "stripped-text")
      (jsOr (pb.getProp "body") (pb.getProp "text")))
    html := jsOr (pb.getProp "body-html") (jsOr (pb.getProp "stripped-html") (pb.getProp "html")) }

/-- Field extraction for the simple format (`from`/`to`/`subject` directly
on the body). -/
def simpleFields (pb : Json) : Extracted :=
  { «from» := pb.getProp "from"
    «to» := pb.getProp "to"
    subject := pb.getProp "subject"
    text := jsOr (pb.getProp "text") (jsOr (pb.getProp "body-plain") (pb.getProp "stripped-text"))
    html := jsOr (pb.getProp "html") (jsOr (pb.getProp "body-html") (pb.getProp "stripped-html"))}

/-- Indices of a `for (let i = start; i < stop; i += 100)` loop. -/
def strideIdxs (start stop : Nat) : List Nat :=
  (List.range ((stop - start + 99) / 100)).map (fun k => start + k * 100)

/-- One sampled element of the massive-array branch: a non-empty string is
JSON-parsed and adopted when it carries e-mail marker fields; otherwise,
when it contains an `@` and one of the words subject/from/to, the sample
regex patterns fill any matching fields (and scanning stops only when all
three of from/to/subject are then truthy). An object sample with marker
fields is adopted directly. Result: new state, replacement body (when one
was adopted), and the `emailFound` break flag. -/
def sampleStep (item : Json) (st : Extracted) : Extracted × Option Json × Bool :=
  match item with
  | .str s =>
    if s != "" then
      let parsedHit : Option Json :=
        match jsonParse s with
        | some parsed =>
          if parsed.truthy && parsed.isObjectType && hasEmailKeys parsed then some parsed else none
        | none => none
      match parsedHit with
      | some parsed => (st, some parsed, true)
      | none =>
        if containsSub "@".data s.data &&
           (containsSub "subject".data s.data || containsSub "from".data s.data ||
            containsSub "to".data s.data) then
          let st1 := { st with
            «from» := setMatch (jsMatchSampleEmailKey "from" s) st.«from»,
            «to» := setMatch (jsMatchSampleEmailKey "to" s) st.«to»,
            subject := setMatch (jsMatchSampleSubject s) st.subject }
          if truthyOpt st1.«from» && truthyOpt st1.«to» && truthyOpt st1.subject then
            (st1, none, true)
          else (st1, none, false)
        else (st, none, false)
    else (st, none, false)
  | _ =>
    if item.truthy && item.isObjectType && hasEmailKeys item then (st, some item, true)
    else (st, none, false)

/-- The sample loop with its `break` semantics. -/
def sampleLoop : List Json → Extracted → Extracted × Option Json × Bool
  | [], st => (st, none, false)
  | item :: rest, st =>
    match sampleStep item st with
    | (st1, pb, true) => (st1, pb, true)
    | (st1, _, false) => sampleLoop rest st1

/-- The massive-array branch (over 1000 elements): sample stride-100 slices
from the start, middle and end; when sampling finds nothing and the array
has fewer than 10000 elements, fall back to a case-sensitive quoted-key
regex search over the full serialization. -/
def massiveArrayStage (arrJson : Json) (items : List Json) (st : Extracted) : Extracted × Json :=
  let len := items.length
  let sampleSize := min 1000 (len / 10)
  let idxs := strideIdxs 0 sampleSize ++
    strideIdxs (len / 2) (min (len / 2 + sampleSize) len) ++
    strideIdxs (len - sampleSize) len
  let samples := idxs.filterMap (fun i => items.get? i)
  match sampleLoop samples st with
  | (st1, some newPb, true) => (st1, newPb)
  | (st1, none, true) => (st1, arrJson)
  | (st1, _, false) =>
    if len < 10000 then
      let arrayStr := arrJson.stringify
      ({ st1 with
          «from» := setMatch (jsMatchQuotedKey false true "from" arrayStr) st1.«from»,
          «to» := setMatch (jsMatchQuotedKey false true "to" arrayStr) st1.«to»,
          subject := setMatch (jsMatchQuotedKey false false "subject" arrayStr) st1.subject },
        arrJson)
    else (st1, arrJson)

/-- A pattern with the `.trim()` the handler applies to its capture. -/
def withTrim (f : String → Option String) (s : String) : Option String :=
  (f s).map jsTrimStr

/-- The final fallback of the extraction phase: the massive-array branch,
then the standard extraction over the (possibly replaced) body, then the
comprehensive per-field regex pattern lists over the serialized body
(bounded to its first 50000 characters when not already a string). -/
def fallbackStage (pb : Json) (st : Extracted) : Extracted :=
  let staged : Extracted × Json :=
    match pb with
    | .arr items =>
      let l := items.toList
      if 1000 < l.length then massiveArrayStage (.arr items) l st else (st, pb)
    | _ => (st, pb)
  let st1 := staged.1
  let pb1 := staged.2
  let st2 :=
    if !truthyOpt st1.«from» && !truthyOpt st1.«to» && !truthyOpt st1.subject &&
       pb1.truthy && pb1.isObjectType && !pb1.isArr then
      recipientFields pb1
    else st1
  if !truthyOpt st2.«from» && !truthyOpt st2.«to» && !truthyOpt st2.subject then
    let bodyStr := match pb1 with
      | .str s0 => s0
      | _ => String.mk (pb1.stringify.data.take 50000)
    let st3 := { st2 with
      «from» := setMatch (firstPatternMatch
        [withTrim (jsMatchQuotedKey true true "from"),
         withTrim (jsMatchQuotedKey true true "sender"),
         withTrim (jsMatchUnquotedEmailKey "from"),
         withTrim (jsMatchUnquotedEmailKey "sender")] bodyStr) st2.«from»,
      «to» := setMatch (firstPatternMatch
        [withTrim (jsMatchQuotedKey true true "to"),
         withTrim (jsMatchQuotedKey true true "recipient"),
         withTrim (jsMatchUnquotedEmailKey "to"),
         withTrim (jsMatchUnquotedEmailKey "recipient")] bodyStr) st2.«to»,
      subject := setMatch (firstPatternMatch
        [withTrim (jsMatchQuotedKey true false "subject"),
         jsMatchUnquotedSubject] bodyStr) st2.subject }
    if !truthyOpt st3.text && !truthyOpt st3.html then
      { st3 with text := setMatch (firstPatternMatch
          [jsMatchQuotedKey false false "body-plain",
           jsMatchQuotedKey false false "stripped-text",
           jsMatchQuotedKey false false "body",
           jsMatchQuotedKey false false "text"] bodyStr) st3.text }
    else st3
  else st2

/-- The format-dispatch stages of the extraction phase: Mailgun event-data
format, flat recipient format, simple format, then the fallback stage. -/
def formatStages (pb : Json) (st : Extracted) : Extracted :=
  let ed := pb.getProp "event-data"
  if truthyOpt ed && truthyOpt (optChainProp ed "message") then
    eventDataFields ((optChainProp ed "message").getD .null)
  else if truthyOpt (pb.getProp "recipient") then recipientFields pb
  else if truthyOpt (pb.getProp "from") || truthyOpt (pb.getProp "to") ||
          truthyOpt (pb.getProp "subject") then simpleFields pb
  else fallbackStage pb st

/-- The string-body stage: a string body is JSON-parsed when possible,
otherwise kept as an opaque string (the parse failure is caught). -/
def parsedBodyOf (body : Json) : Json :=
  match body with
  | .str s => (jsonParse s).getD (.str s)
  | _ => body

/-- The extraction and normalization phase of `processEmailTask` (string
stage, array stage, array-like stage, format dispatch with fallbacks).
`Except.error ()` models the TypeError the handler raises when the parsed
body is `null`: the array stages pass `null` through untouched and the
first unguarded property access (`parsedBody['event-data']` in the
format-dispatch logging) then throws, which only the outer catch-all
turns into a server error. -/
def processEmailTaskExtract (body : Json) : Except Unit Extracted :=
  let pb0 := parsedBodyOf body
  let stagedArr := arrayStage pb0
  let st1 := arrayLikeStage stagedArr.2 stagedArr.1
  if (stagedArr.2).isNull then Except.error ()
  else Except.ok (formatStages stagedArr.2 st1)

/-- Modelled from the spec: the Payload Normalizer behavior the spec
prescribes for arrays of between 100 and 1000 elements (spec section 4.1,
stage 5) — apply the at-most-100 per-element scan strategy (adopt the first
element that is an object containing any of from/to/subject/sender/
recipient, JSON-parsing string elements) regardless of the element count,
and produce the result the downstream stages give on the adopted body. -/
def specSmallArrayPipeline (body : Json) : Except Unit Extracted :=
  let pb0 := parsedBodyOf body
  let pb1 := match pb0 with
    | .arr items => (smallArrayScan items.toList).getD (.arr items)
    | j => j
  let st1 := arrayLikeStage pb1 emptyExtracted
  if pb1.isNull then Except.error ()
  else Except.ok (formatStages pb1 st1)

/-- The externally observable outcomes of the request handler after
extraction: the 400 missing-fields response with its per-field validity
details, the 400 invalid-address response, the 404 unknown-user response
carrying the attempted identifier, and the 200 success carrying the
created task. -/
inductive EmailResponse where
  | missingFields (fromOk toOk subjectOk : Bool)
  | invalidEmailFormat (email : String)
  | userNotFound (requestedUserId : String)
  | taskCreated (userId : String) (task : EmailTask)

/-- The validation, user-resolution and task-creation phase of
`processEmailTask` on an extraction result. The user store is modeled as
the list of existing user-document ids; the Firestore write itself (and
its server-error paths) is an external effect outside this model, so the
success outcome carries the task that would be written. Returns the
response together with the task handed to the store (`none` exactly when
no task is created). -/
def processEmailTaskRespond (users : List String) (today : CalDate) (ext : Extracted) :
    EmailResponse × Option EmailTask :=
  let sanitizedFrom := validateAndSanitizeEmail (jsOrDefault ext.«from» (.str ""))
  let sanitizedTo := validateAndSanitizeEmail (jsOrDefault ext.«to» (.str ""))
  let sanitizedSubject := sanitizeSubject (jsOrDefault ext.subject (.str ""))
  let sanitizedText := sanitizeTextContent (jsOrDefault ext.text (.str ""))
  let sanitizedHtml := sanitizeTextContent (jsOrDefault ext.html (.str ""))
  if sanitizedFrom.isNone || sanitizedTo.isNone || sanitizedSubject = "" then
    (.missingFields sanitizedFrom.isSome sanitizedTo.isSome (sanitizedSubject != ""), none)
  else
    let toStr := sanitizedTo.getD ""
    match extractUserIdFromEmail (Json.str toStr) with
    | none => (.invalidEmailFormat toStr, none)
    | some userId =>
      let task := parseEmailToTask today
        { «from» := sanitizedFrom.getD "", «to» := toStr, subject := sanitizedSubject,
          text := sanitizedText, html := sanitizedHtml, receivedAt := today }
      if users.contains userId then (.taskCreated userId task, some task)
      else
        match users.find? (fun u => jsLowerStr u = jsLowerStr userId) with
        | some actualUserId => (.taskCreated actualUserId task, some task)
        | none => (.userNotFound userId, none)

/-- The array payload of the C2 counterexample: 101 elements, the first an
object carrying sender/recipient/subject, the remaining hundred the number
7. -/
def c2Payload : Json :=
  Json.arrL (Json.objL [("sender", Json.str "alice@example.com"),
    ("recipient", Json.str "bob@tasks.example.com"), ("subject", Json.str "Hello")] ::
    List.replicate 100 (Json.num 7))

/-- The `from` field of an extraction result, as a string. -/
def extractedFromStr (r : Except Unit Extracted) : Option String :=
  match r with
  | .ok e => asStr e.«from»
  | .error _ => none

/-- The 150-element witness array for the amended C2 .-/
def c2WitnessItems : JsonList := JsonList.ofList (List.replicate 150 (Json.num 1))

/-- C1: the importance inferred from a subject is 9 when the subject
matches the urgent alternation, else 7 for high/important, else 3 for
low/minor, else 5; and the importance field of every produced task draft
lies in [1,10]. -/
theorem c1_importance_inference (s : String) (today : CalDate) (e : EmailMessage) :
    (jsTestAlternatives ["urgent", "asap", "immediate"] s = true →
      extractImportanceFromSubject s = 9) ∧
    (jsTestAlternatives ["urgent", "asap", "immediate"] s = false →
      jsTestAlternatives ["high", "important"] s = true →
      extractImportanceFromSubject s = 7) ∧
    (jsTestAlternatives ["urgent", "asap", "immediate"] s = false →
      jsTestAlternatives ["high", "important"] s = false →
      jsTestAlternatives ["low", "minor"] s = true →
      extractImportanceFromSubject s = 3) ∧
    (jsTestAlternatives ["urgent", "asap", "immediate"] s = false →
      jsTestAlternatives ["high", "important"] s = false →
      jsTestAlternatives ["low", "minor"] s = false →
      extractImportanceFromSubject s = 5) ∧
    1 ≤ (parseEmailToTask today e).importance ∧
    (parseEmailToTask today e).importance ≤ 10 := by
  refine ⟨?_, ?_, ?_, ?_, ?_, ?_⟩
  · intro h1; simp [extractImportanceFromSubject, h1]
  · intro h1 h2; simp [extractImportanceFromSubject, h1, h2]
  · intro h1 h2 h3; simp [extractImportanceFromSubject, h1, h2, h3]
  · intro h1 h2 h3; simp [extractImportanceFromSubject, h1, h2, h3]
  · exact Nat.le_max_left 1 _
  · exact max_le (by omega) (Nat.min_le_left 10 _)

/-- C1 witness: concrete importance inferences and bounds. -/
theorem c1_importance_inference_witness :
    extractImportanceFromSubject "URGENT: Server down" = 9 ∧
    extractImportanceFromSubject "a Minor cleanup" = 3 ∧
    1 ≤ (parseEmailToTask ⟨2026, 10, 12⟩ ⟨"a@b.co", "u@t.co", "Hello", "", "", ⟨2026, 10, 12⟩⟩).importance ∧
    (parseEmailToTask ⟨2026, 10, 12⟩ ⟨"a@b.co", "u@t.co", "Hello", "", "", ⟨2026, 10, 12⟩⟩).importance ≤ 10 :=
  ⟨(c1_importance_inference "URGENT: Server down" ⟨2026, 10, 12⟩
      ⟨"a@b.co", "u@t.co", "Hello", "", "", ⟨2026, 10, 12⟩⟩).1 (by decide),
   (c1_importance_inference "a Minor cleanup" ⟨2026, 10, 12⟩
      ⟨"a@b.co", "u@t.co", "Hello", "", "", ⟨2026, 10, 12⟩⟩).2.2.1 (by decide) (by decide) (by decide),
   (c1_importance_inference "x" ⟨2026, 10, 12⟩
      ⟨"a@b.co", "u@t.co", "Hello", "", "", ⟨2026, 10, 12⟩⟩).2.2.2.2.1,
   (c1_importance_inference "x" ⟨2026, 10, 12⟩
      ⟨"a@b.co", "u@t.co", "Hello", "", "", ⟨2026, 10, 12⟩⟩).2.2.2.2.2⟩

/-- C3: the code evaluated at a recipient whose local part has uppercase
letters. `extractUserIdFromEmail` lowercases the whole address inside
`validateAndSanitizeEmail` before taking the local part, so the extracted
identifier is the lowercased local part, not the original-case one its own
comment (`Return the original case-sensitive user ID`) and the spec
describe. -/
theorem c3_user_id_is_lowercased :
    extractUserIdFromEmail (Json.str "Alice@tasks.example.com") = some "alice" ∧
    validateAndSanitizeEmail (Json.str "Alice@tasks.example.com") =
      some "alice@tasks.example.com" :=
  ⟨rfl, rfl⟩

/-- C4: the code evaluated at subjects with an explicit `due:` marker whose
digits denote no real calendar date: the extractor returns a present but
invalid (NaN) date value (`some none`), not a valid calendar date; a
well-formed marker yields the real date. -/
theorem c4_due_date_invalid_for_bad_digits :
    extractDueDateFromSubject ⟨2026, 10, 12⟩ "Report due: 2024-13-01" = some none ∧
    extractDueDateFromSubject ⟨2026, 10, 12⟩ "Pay rent due: 2024-01-45" = some none ∧
    extractDueDateFromSubject ⟨2026, 10, 12⟩ "Report due: 2024-01-15" =
      some (some ⟨2024, 1, 15⟩) :=
  ⟨rfl, rfl, rfl⟩

/-- C5: title cleaning strips at most one leading reply/forward marker —
`"Fwd: Fwd: Meeting"` keeps its second marker — and an empty result after
stripping falls back to the fixed default title; the produced task's title
is exactly this cleaned subject. -/
theorem c5_single_prefix_strip :
    cleanEmailSubject "Fwd: Fwd: Meeting" = "Fwd: Meeting" ∧
    (∀ s : String, jsTrim (stripReplyMarker (sanitizeSubject (Json.str s)).data) = [] →
      cleanEmailSubject s = "Email Task") ∧
    (∀ (today : CalDate) (e : EmailMessage),
      (parseEmailToTask today e).title = cleanEmailSubject e.subject) := by
  refine ⟨rfl, ?_, fun _ _ => rfl⟩
  intro s h
  unfold cleanEmailSubject
  simp [h]

/-- C5 witness: a subject that is nothing but a marker yields the default
title. -/
theorem c5_single_prefix_strip_witness : cleanEmailSubject "Re:" = "Email Task" :=
  c5_single_prefix_strip.2.1 "Re:" (by decide)

/-- C6: due-date inference on the extractor's input subject: the explicit
`due:` marker always wins; otherwise a subject containing `tomorrow`
(case-insensitively) gets the processing date plus one calendar day, a
subject containing `next week` gets plus seven days, and a subject
matching none of the rules gets no due date; the produced task's dueDate
is exactly the inference on the cleaned subject. -/
theorem c6_due_date_rules (today : CalDate) (s : String) :
    (∀ y m d, findDueMarker s = some (y, m, d) →
      extractDueDateFromSubject today s = some (jsDateFromYMD y m d)) ∧
    (findDueMarker s = none → containsSubCI "tomorrow".data s.data = true →
      extractDueDateFromSubject today s = some (some (addCalendarDays today 1))) ∧
    (findDueMarker s = none → containsSubCI "tomorrow".data s.data = false →
      containsSubCI "next week".data s.data = true →
      extractDueDateFromSubject today s = some (some (addCalendarDays today 7))) ∧
    (findDueMarker s = none → containsSubCI "tomorrow".data s.data = false →
      containsSubCI "next week".data s.data = false →
      extractDueDateFromSubject today s = none) ∧
    (∀ e : EmailMessage, (parseEmailToTask today e).dueDate =
      extractDueDateFromSubject today (cleanEmailSubject e.subject)) := by
  refine ⟨?_, ?_, ?_, ?_, fun _ => rfl⟩
  · intro y m d h; simp [extractDueDateFromSubject, h]
  · intro h1 h2; simp [extractDueDateFromSubject, h1, h2]
  · intro h1 h2 h3; simp [extractDueDateFromSubject, h1, h2, h3]
  · intro h1 h2 h3; simp [extractDueDateFromSubject, h1, h2, h3]

/-- C6 witness: a subject containing `Tomorrow` at a month boundary. -/
theorem c6_due_date_rules_witness :
    extractDueDateFromSubject ⟨2026, 11, 30⟩ "Standup Tomorrow" = some (some ⟨2026, 12, 1⟩) :=
  ((c6_due_date_rules ⟨2026, 11, 30⟩ "Standup Tomorrow").2.1 (by decide) (by decide)).trans
    (by decide)

/-- C8: an email whose text and html bodies are both empty always yields
the fixed placeholder description, whatever the other fields are. -/
theorem c8_placeholder_description (today : CalDate) (f t subj : String) (recv : CalDate) :
    (parseEmailToTask today ⟨f, t, subj, "", "", recv⟩).description =
      "No description provided" := by
  have h1 : emailRawBody ⟨f, t, subj, "", "", recv⟩ = "" := rfl
  rw [parseEmailToTask]
  dsimp only
  rw [emailDescription, h1]
  rfl

theorem mem_replaceAllGo {pat rep : List Char} {c : Char} :
    ∀ (fuel : Nat) (l : List Char), c ∈ replaceAllGo pat rep fuel l → c ∈ l ∨ c ∈ rep := by
  intro fuel
  induction fuel with
  | zero =>
    intro l h
    cases l with
    | nil => simp [replaceAllGo] at h
    | cons a as => exact Or.inl h
  | succ n ih =>
    intro l h
    cases l with
    | nil => simp [replaceAllGo] at h
    | cons a as =>
      simp only [replaceAllGo] at h
      by_cases hc : (!pat.isEmpty && pat.isPrefixOf (a :: as)) = true
      · rw [if_pos hc] at h
        rcases List.mem_append.mp h with h1 | h2
        · exact Or.inr h1
        · rcases ih _ h2 with h3 | h4
          · exact Or.inl (List.mem_cons_of_mem a (List.mem_of_mem_drop h3))
          · exact Or.inr h4
      · rw [if_neg hc] at h
        rcases List.mem_cons.mp h with h1 | h2
        · exact Or.inl (h1 ▸ List.mem_cons_self a as)
        · rcases ih _ h2 with h3 | h4
          · exact Or.inl (List.mem_cons_of_mem a h3)
          · exact Or.inr h4

theorem replaceAll_pres {P : Char → Prop} (pat rep : String) {l : List Char}
    (hl : ∀ c ∈ l, P c) (hr : ∀ c ∈ rep.data, P c) :
    ∀ c ∈ replaceAll pat rep l, P c := by
  intro c hc
  rcases mem_replaceAllGo _ _ hc with h | h
  exacts [hl c h, hr c h]

theorem mem_jsTrim {c : Char} {l : List Char} (h : c ∈ jsTrim l) : c ∈ l := by
  unfold jsTrim at h
  rw [List.mem_reverse] at h
  have h2 := (List.dropWhile_sublist (l := (l.dropWhile isRegexWs).reverse) (p := isRegexWs)).subset h
  rw [List.mem_reverse] at h2
  exact (List.dropWhile_sublist (l := l) (p := isRegexWs)).subset h2

theorem sanitizeTextContent_noCtrl (t : Json) :
    ∀ c ∈ (sanitizeTextContent t).data, isCtrlChar c = false := by
  unfold sanitizeTextContent
  by_cases h : (!t.truthy || !t.isStr) = true
  · simp [h]
  · rw [if_neg h]
    cases t with
    | str s =>
      intro c hc
      simp only [String.data] at hc
      have hc2 := mem_jsTrim (List.mem_of_mem_take hc)
      have base : ∀ x ∈ (s.data.filter (fun c => !(c = '<' || c = '>'))).filter
          (fun c => !isCtrlChar c), isCtrlChar x = false := by
        intro x hx
        have := (List.mem_filter.mp hx).2
        simpa using this
      have step1 := replaceAll_pres "&quot;" "\"" base (by decide)
      have step2 := replaceAll_pres "&amp;" "&" step1 (by decide)
      have step3 := replaceAll_pres "&lt;" "<" step2 (by decide)
      have step4 := replaceAll_pres "&gt;" ">" step3 (by decide)
      have step5 := replaceAll_pres "&#39;" "'" step4 (by decide)
      exact step5 c hc2
    | null => simp
    | bool b => simp
    | num n => simp
    | arr l => simp
    | obj kvs => simp

theorem sanitizeTextContent_length (t : Json) : (sanitizeTextContent t).length ≤ 5000 := by
  unfold sanitizeTextContent
  by_cases h : (!t.truthy || !t.isStr) = true
  · simp [h]
  · rw [if_neg h]
    cases t with
    | str s =>
      dsimp only
      show ((jsTrim _).take 5000).length ≤ 5000
      rw [List.length_take]
      exact Nat.min_le_left 5000 _
    | null => simp
    | bool b => simp
    | num n => simp
    | arr l => simp
    | obj kvs => simp

/-- C10: body sanitization yields a string with no control characters — in
particular no newline or carriage return, so multi-line input is joined
into a single line — of length at most 5000; consequently every task
draft's description (the sanitized body or the fixed placeholder) has the
same property. -/
theorem c10_description_single_line (s : String) (today : CalDate) (e : EmailMessage) :
    (∀ c ∈ (sanitizeTextContent (Json.str s)).data, isCtrlChar c = false) ∧
    '\n' ∉ (sanitizeTextContent (Json.str s)).data ∧
    (sanitizeTextContent (Json.str s)).length ≤ 5000 ∧
    (∀ c ∈ (parseEmailToTask today e).description.data, isCtrlChar c = false) ∧
    (parseEmailToTask today e).description.length ≤ 5000 := by
  have hdesc : ∀ c ∈ (emailDescription e).data, isCtrlChar c = false := by
    rw [emailDescription]
    split
    · decide
    · exact sanitizeTextContent_noCtrl _
  have hlen : (emailDescription e).length ≤ 5000 := by
    rw [emailDescription]
    split
    · decide
    · exact sanitizeTextContent_length _
  refine ⟨sanitizeTextContent_noCtrl _, ?_, sanitizeTextContent_length _, ?_, ?_⟩
  · intro h
    have := sanitizeTextContent_noCtrl (Json.str s) '\n' h
    simp [isCtrlChar] at this
  · rw [parseEmailToTask]; dsimp only; exact hdesc
  · rw [parseEmailToTask]; dsimp only; exact hlen

theorem sanitizeSubject_ne_empty (j : Json) : sanitizeSubject j ≠ "" := by
  unfold sanitizeSubject
  by_cases h : (!j.truthy || !j.isStr) = true
  · simp [h]
  · rw [if_neg h]
    cases j with
    | str s =>
      dsimp only
      split
      · decide
      · next h2 =>
        rw [List.isEmpty_iff] at h2
        intro heq
        exact h2 (congrArg String.data heq)
    | null => simp
    | bool b => simp
    | num n => simp
    | arr l => simp
    | obj kvs => simp

/-- C7: the request handler's two client-error outcomes. If any of
from/to/subject is missing or invalid after sanitization, the response is
the missing-fields client error whose details carry, for each of the three
fields, whether it validated — and no task is created. If all three
validate but the extracted identifier matches no user even by the
case-insensitive fallback scan, the response is the distinct not-found
client error carrying the attempted identifier — and no task is created. -/
theorem c7_client_error_outcomes (users : List String) (today : CalDate) (ext : Extracted) :
    ((validateAndSanitizeEmail (jsOrDefault ext.«from» (.str "")) = none ∨
      validateAndSanitizeEmail (jsOrDefault ext.«to» (.str "")) = none ∨
      sanitizeSubject (jsOrDefault ext.subject (.str "")) = "") →
      processEmailTaskRespond users today ext =
        (.missingFields (validateAndSanitizeEmail (jsOrDefault ext.«from» (.str ""))).isSome
          (validateAndSanitizeEmail (jsOrDefault ext.«to» (.str ""))).isSome
          (sanitizeSubject (jsOrDefault ext.subject (.str "")) != ""), none)) ∧
    (∀ f t uid,
      validateAndSanitizeEmail (jsOrDefault ext.«from» (.str "")) = some f →
      validateAndSanitizeEmail (jsOrDefault ext.«to» (.str "")) = some t →
      extractUserIdFromEmail (Json.str t) = some uid →
      users.contains uid = false →
      users.find? (fun u => jsLowerStr u = jsLowerStr uid) = none →
      processEmailTaskRespond users today ext = (.userNotFound uid, none)) ∧
    (∀ a b c u, EmailResponse.missingFields a b c ≠ EmailResponse.userNotFound u) := by
  refine ⟨?_, ?_, ?_⟩
  · intro hmiss
    unfold processEmailTaskRespond
    rcases hmiss with h | h | h <;> simp [h]
  · intro f t uid hf ht huid hcontains hfind
    unfold processEmailTaskRespond
    have hmem : uid ∉ users := by simpa using hcontains
    simp [hf, ht, huid, hcontains, hfind, hmem, sanitizeSubject_ne_empty]
  · intro a b c u
    simp

theorem smallArrayScan_truthy :
    ∀ (l : List Json) (v : Json), smallArrayScan l = some v → v.truthy = true := by
  intro l
  induction l with
  | nil => intro v h; simp [smallArrayScan] at h
  | cons item rest ih =>
    intro v h
    unfold smallArrayScan at h
    repeat' split at h
    all_goals first
      | (have hv := Option.some.inj h; subst hv; simp_all only [Bool.and_eq_true])
      | exact ih v h
      | simp_all

theorem isNull_iff (j : Json) : j.isNull = true ↔ j = Json.null := by
  cases j <;> simp [Json.isNull]

theorem arrayStage_preserves_null (j : Json) :
    (arrayStage j).2 = Json.null ↔ j = Json.null := by
  cases j with
  | arr items =>
    simp only [arrayStage]
    constructor
    · intro h
      by_cases hlen : items.toList.length ≤ 100
      · rw [if_pos hlen] at h
        simp only [] at h
        cases hscan : smallArrayScan items.toList with
        | some v =>
          rw [hscan] at h
          simp only [Option.getD_some] at h
          have := smallArrayScan_truthy _ _ hscan
          rw [h] at this
          simp [Json.truthy] at this
        | none =>
          rw [hscan] at h
          simp only [Option.getD_none] at h
          exact absurd h (by simp)
      · rw [if_neg hlen] at h
        exact absurd h (by simp)
    · intro h
      exact absurd h (by simp)
  | null => simp [arrayStage]
  | bool b => simp [arrayStage]
  | num n => simp [arrayStage]
  | str s2 => simp [arrayStage]
  | obj kvs => simp [arrayStage]

/-- C9 (amended): the extraction phase raises (the modeled TypeError,
surfaced by the outer handler as a server error) exactly when the working
body after the string stage is `null` — a value the JSON string `"null"`
produces; for every other body of any shape it is total and every
extraction miss is a normal negative outcome. -/
theorem c9_total_unless_null (body : Json) :
    processEmailTaskExtract body = Except.error () ↔ parsedBodyOf body = Json.null := by
  unfold processEmailTaskExtract
  constructor
  · intro herr
    by_contra hne
    have hfalse : (arrayStage (parsedBodyOf body)).2.isNull = false := by
      rw [Bool.eq_false_iff]
      intro ht
      exact hne ((arrayStage_preserves_null _).mp ((isNull_iff _).mp ht))
    simp [hfalse] at herr
  · intro hnull
    have htrue : (arrayStage (parsedBodyOf body)).2.isNull = true :=
      (isNull_iff _).mpr ((arrayStage_preserves_null _).mpr hnull)
    simp [htrue]

/-- C9 counterexample: the JSON string body `"null"` — one of the string
bodies the claim quantifies over — parses to `null` and makes the
extraction phase throw instead of reporting a normal negative outcome. -/
theorem c9_counterexample : processEmailTaskExtract (Json.str "null") = Except.error () := rfl

set_option maxRecDepth 100000 in
/-- C2 counterexample: on a 101-element array (count strictly between 100
and 1000) the extraction phase does not produce the result of the ≤100
per-element strategy: the code takes the stringify-and-regex branch, which
misses the sender and recipient fields of the first element (it finds only
the quoted subject key), while the per-element scan strategy adopts that
element and recovers the sender address. -/
theorem c2_counterexample :
    processEmailTaskExtract c2Payload ≠ specSmallArrayPipeline c2Payload := by
  intro h
  have h1 : extractedFromStr (processEmailTaskExtract c2Payload) = none := rfl
  have h2 : extractedFromStr (specSmallArrayPipeline c2Payload) = some "alice@example.com" := rfl
  rw [h, h2] at h1
  exact Option.noConfusion h1

/-- C2 (amended): for an array of strictly between 100 and 1000 elements
the extraction phase applies the large-array strategy — serialize the whole
array and extract quoted from/to/subject/body-plain/body-html keys by
regex — and then the ordinary downstream stages, not the ≤100 per-element
scan. -/
theorem c2_large_branch_between_100_and_1000 (items : JsonList)
    (h1 : 100 < items.toList.length) (h2 : items.toList.length < 1000) :
    processEmailTaskExtract (.arr items) =
      Except.ok (formatStages (.arr items)
        (arrayLikeStage (.arr items) (largeArrayExtract (.arr items)))) := by
  unfold processEmailTaskExtract parsedBodyOf arrayStage
  simp [Nat.not_le.mpr h1, Json.isNull]

set_option maxRecDepth 100000 in
/-- C2 amended witness: a concrete array of 150 elements. -/
theorem c2_large_branch_witness :
    100 < c2WitnessItems.toList.length ∧ c2WitnessItems.toList.length < 1000 ∧
    processEmailTaskExtract (.arr c2WitnessItems) =
      Except.ok (formatStages (.arr c2WitnessItems)
        (arrayLikeStage (.arr c2WitnessItems) (largeArrayExtract (.arr c2WitnessItems)))) :=
  ⟨by decide, by decide,
   c2_large_branch_between_100_and_1000 c2WitnessItems (by decide) (by decide)⟩

/-- C7 witness: a concrete payload with an invalid from address, and a
concrete fully-valid payload whose recipient local part matches no user
even case-insensitively. -/
theorem c7_client_error_outcomes_witness :
    processEmailTaskRespond ["zed"] ⟨2026, 10, 12⟩
        ⟨some (.str "bad"), some (.str "Bob@tasks.example.com"), some (.str "Hi"), none, none⟩ =
      (.missingFields false true true, none) ∧
    processEmailTaskRespond ["zed"] ⟨2026, 10, 12⟩
        ⟨some (.str "ann@example.com"), some (.str "Alice@tasks.example.com"),
          some (.str "Hi"), none, none⟩ =
      (.userNotFound "alice", none) :=
  ⟨(c7_client_error_outcomes ["zed"] ⟨2026, 10, 12⟩ _).1 (Or.inl (by decide)),
   (c7_client_error_outcomes ["zed"] ⟨2026, 10, 12⟩ _).2.1 "ann@example.com"
     "alice@tasks.example.com" "alice" (by decide) (by decide) (by decide) (by decide)
     (by decide)⟩

/-- C9 amended-theorem witness: a numeric body (not null after parsing)
does not make the extraction phase throw. -/
theorem c9_total_unless_null_witness :
    processEmailTaskExtract (Json.num 3) ≠ Except.error () := by
  intro h
  have h2 := (c9_total_unless_null (Json.num 3)).mp h
  exact Json.noConfusion h2

end TaskManager
